import Mathlib

set_option linter.unusedVariables false

namespace WebFlowers

/-! Shallow embedding of src/flowers.ts (the WebFlowers growth and placement
logic). Scales, positions and rotations are exact rationals and every
THREE.Group is a Part record. Randomness is explicit: each Math.random draw
the code makes is a parameter of the corresponding definition. -/

/-- Embeds constants.minLeaves. -/
def minLeaves : Nat := 1

/-- Embeds constants.maxLeaves. -/
def maxLeaves : Nat := 4

/-- True-count of a boolean vector, as the source computes it with
filter(x => x === true).length. -/
def countTrue (l : List Bool) : Nat := (l.filter (fun x => x == true)).length

/-- One pass of util.andBooleanArrays over a candidate array: every index the
candidate holds false at is cleared in the result, entries of the result
beyond the candidate are kept. Mirrors the inner map pass of the source,
where assignment past the end cannot occur at the call sites (the first
array fixes the result length and all arrays passed are equally long). -/
def clearFalses : List Bool → List Bool → List Bool
  | [], _ => []
  | rs, [] => rs
  | r :: rs, a :: bs => (r && a) :: clearFalses rs bs

/-- Embeds util.andBooleanArrays: zero arrays give the empty sequence;
otherwise the result starts as all-true of the first array length and each
array clears the entries where it holds false. -/
def andBooleanArrays (arrays : List (List Bool)) : List Bool :=
  match arrays with
  | [] => []
  | a0 :: _ => arrays.foldl clearFalses (List.replicate a0.length true)

/-- Exact-rational triple standing for one THREE.Vector3 slot. -/
structure Vec3 where
  x : ℚ
  y : ℚ
  z : ℚ

/-- One renderable group: scale, position and rotation vectors plus the
visibility flag. -/
structure Part where
  scale : Vec3
  position : Vec3
  rotation : Vec3
  visible : Bool

/-- The per-instance composite handed to rendering.render: a stem, a torus,
the stamens, the petals and the leaves. -/
structure FlowerState where
  stem : Part
  torus : Part
  stamens : List Part
  petals : List Part
  leaves : List Part

/-- Embeds rendering.updateStem: grow scale.y by 0.001 while it is at most 1
and scale.z by 0.005 while it is at most 1. -/
def updateStem (stem : Part) : Part :=
  let s1 :=
    if stem.scale.y ≤ 1 then
      { stem with scale := { stem.scale with y := stem.scale.y + 0.001 } }
    else stem
  if s1.scale.z ≤ 1 then
    { s1 with scale := { s1.scale with z := s1.scale.z + 0.005 } }
  else s1

/-- The per-stamen upward ride of rendering.updateTorusAndStamens. -/
def liftStamen (p : Part) : Part :=
  { p with position := { p.position with y := p.position.y + 0.04 } }

/-- The per-stamen growth of rendering.updateTorusAndStamens. -/
def growStamen (p : Part) : Part :=
  { p with scale := { x := p.scale.x + 0.0003, y := p.scale.y + 0.0003, z := p.scale.z + 0.0003 } }

/-- The torus growth block of rendering.updateTorusAndStamens. -/
def torusGrow (torus : Part) : Part :=
  if torus.scale.x ≤ (0.1 : ℚ) then
    { torus with scale :=
        { x := torus.scale.x + 0.00035, y := torus.scale.y + 0.00025, z := torus.scale.z + 0.00035 } }
  else torus

/-- The torus upward ride of rendering.updateTorusAndStamens. -/
def torusLift (torus : Part) : Part :=
  { torus with position := { torus.position with y := torus.position.y + 0.04 } }

/-- The stamen growth block of rendering.updateTorusAndStamens: the guard
reads the lead stamen of the current (already lifted this frame) sequence
unconditionally, a JS undefined access on an empty stamen list, rendered as
none. -/
def stamensGate (torus1 : Part) (stamens1 : List Part) : Option (Part × List Part) :=
  match stamens1[0]? with
  | none => none
  | some s0 => some (torus1, if s0.scale.x ≤ (0.12 : ℚ) then stamens1.map growStamen else stamens1)

/-- Embeds rendering.updateTorusAndStamens: grow the torus while its scale is
small, then ride torus and every stamen upward while the torus position
guard holds, then grow every stamen while the lead stamen scale guard holds. -/
def updateTorusAndStamens (torus : Part) (stamens : List Part) : Option (Part × List Part) :=
  if (torusGrow torus).position.y ≤ (41.5 : ℚ) then
    stamensGate (torusLift (torusGrow torus)) (stamens.map liftStamen)
  else
    stamensGate (torusGrow torus) stamens

/-- The per-stamen effect of one updateTorusAndStamens call, keyed on the two
shared guards the source evaluates once per call: ride is the torus position
guard and grow the lead stamen scale guard. -/
def stamenEffect (ride grow : Bool) (s : Part) : Part :=
  let s1 := if ride then liftStamen s else s
  if grow then growStamen s1 else s1

/-- The fixed per-index rotation easing rules of rendering.updatePetals for
petal indices 0 to 5; any further index is untouched by the source. -/
def petalRotation (i : Nat) (r : Vec3) : Vec3 :=
  match i with
  | 0 => { r with x := if (0.7 : ℚ) ≤ r.x then r.x - 0.003 else r.x }
  | 1 =>
    let r1 := { r with x := if (0.7 : ℚ) ≤ r.x then r.x - 0.003 else r.x }
    { r1 with z := if r1.z ≤ 0 then r1.z + 0.003 else r1.z }
  | 2 =>
    let r1 := { r with x := if r.x ≤ (0.7 : ℚ) then r.x + 0.005 else r.x }
    { r1 with z := if 0 ≤ r1.z then r1.z - 0.006 else r1.z }
  | 3 => { r with x := if r.x ≤ (0.7 : ℚ) then r.x + 0.003 else r.x }
  | 4 =>
    let r1 := { r with x := if r.x ≤ (0.7 : ℚ) then r.x + 0.005 else r.x }
    { r1 with z := if r1.z ≤ 0 then r1.z + 0.0065 else r1.z }
  | 5 =>
    let r1 := { r with x := if (0.7 : ℚ) ≤ r.x then r.x - 0.005 else r.x }
    { r1 with z := if 0 ≤ r1.z then r1.z - 0.0065 else r1.z }
  | _ => r

/-- Read petal i and rewrite its rotation by the per-index rule; none when
index i is past the end of the sequence (a JS undefined access). -/
def setPetalRotation (petals : List Part) (i : Nat) : Option (List Part) :=
  match petals[i]? with
  | none => none
  | some p => some (petals.set i { p with rotation := petalRotation i p.rotation })

/-- The shared upward translation of rendering.updatePetals, gated on the
lead petal position read before the loop. -/
def petalsLift (petals : List Part) (p0 : Part) : List Part :=
  if p0.position.y ≤ 41 then
    petals.map (fun p => { p with position := { p.position with y := p.position.y + 0.042 } })
  else petals

/-- The shared growth of rendering.updatePetals, gated on the lead petal
scale read after the translation block. -/
def petalsGrow (petals : List Part) (q0 : Part) : List Part :=
  if q0.scale.x ≤ 1 then
    petals.map (fun p =>
      { p with scale := { x := p.scale.x + 0.004, y := p.scale.y + 0.004, z := p.scale.z + 0.004 } })
  else petals

/-- Embeds rendering.updatePetals: the shared upward translation gated on the
lead petal position, the shared growth gated on the lead petal scale, then
the six per-index rotation rules, which read petals[0] through petals[5]
unconditionally and in order. -/
def updatePetals (petals : List Part) : Option (List Part) :=
  match petals[0]? with
  | none => none
  | some p0 =>
    match (petalsLift petals p0)[0]? with
    | none => none
    | some q0 => List.foldlM setPetalRotation (petalsGrow (petalsLift petals p0) q0) [0, 1, 2, 3, 4, 5]

/-- Embeds the body of rendering.updateLeaves for one invalidated leaf.
r1 and r2 are the two util.random comparison draws of this frame for this
leaf (the source redraws both bands every frame). -/
def updateLeaf (r1 r2 : ℚ) (leaf : Part) : Part :=
  let l1 := { leaf with visible := true }
  let l2 := { l1 with position := { l1.position with y := l1.position.y + 0.015 } }
  let l3 :=
    if l2.scale.x ≤ 1 then
      { l2 with scale := { x := l2.scale.x + 0.004, y := l2.scale.y + 0.004, z := l2.scale.z + 0.002 } }
    else l2
  if l3.rotation.x ≤ r1 then
    { l3 with rotation := { l3.rotation with x := l3.rotation.x + 0.0015 } }
  else if r2 ≤ l3.rotation.x then
    { l3 with rotation := { l3.rotation with x := l3.rotation.x - 0.0015 } }
  else l3

/-- Index-tracking loop of rendering.updateLeaves; an invalidity entry that is
absent reads as a falsy JS undefined, leaving the leaf untouched. -/
def updateLeavesGo (rand : Nat → ℚ × ℚ) (invalidities : List Bool) : Nat → List Part → List Part
  | _, [] => []
  | i, leaf :: rest =>
    (if (invalidities[i]?).getD false then updateLeaf (rand i).1 (rand i).2 leaf else leaf)
      :: updateLeavesGo rand invalidities (i + 1) rest

/-- Embeds rendering.updateLeaves: each leaf whose invalidity entry holds is
shown, lifted, grown and rotation-eased; every other leaf is untouched. -/
def updateLeaves (rand : Nat → ℚ × ℚ) (leaves : List Part) (invalidities : List Bool) : List Part :=
  updateLeavesGo rand invalidities 0 leaves

/-- Embeds ValidityChecker.stemInvalidated. -/
def stemInvalidated (stem : Part) : Bool := decide (stem.scale.y ≤ 1)

/-- Embeds ValidityChecker.torusOrStamensInvalidated. -/
def torusOrStamensInvalidated (stem : Part) : Bool := decide ((0.7 : ℚ) ≤ stem.scale.y)

/-- Embeds ValidityChecker.petalsInvalidated. The position conjunct reads
petals[0] only when the scale guard already holds (short-circuit), and its
absence is a JS undefined access, rendered as none. -/
def petalsInvalidated (stem : Part) (petals : List Part) : Option Bool :=
  if (0.61 : ℚ) ≤ stem.scale.y then
    match petals[0]? with
    | none => none
    | some p0 => some (decide (p0.position.y ≤ 41))
  else some false

/-- Embeds ValidityChecker.leavesInvalidities: the immutable leaf lottery
ANDed with the six per-leaf readiness predicates, which read leaves[0]
through leaves[5] unconditionally. -/
def leavesInvalidities (lottery : List Bool) (stem : Part) (leaves : List Part) : Option (List Bool) :=
  match leaves[0]?, leaves[1]?, leaves[2]?, leaves[3]?, leaves[4]?, leaves[5]? with
  | some l0, some l1, some l2, some l3, some l4, some l5 =>
    some (andBooleanArrays [lottery,
      [decide ((0.3 : ℚ) ≤ stem.scale.y ∧ l0.position.y ≤ 10),
       decide ((0.4 : ℚ) ≤ stem.scale.y ∧ l1.position.y ≤ 15),
       decide ((0.45 : ℚ) ≤ stem.scale.y ∧ l2.position.y ≤ 20),
       decide ((0.52 : ℚ) ≤ stem.scale.y ∧ l3.position.y ≤ 24),
       decide ((0.55 : ℚ) ≤ stem.scale.y ∧ l4.position.y ≤ 27),
       decide ((0.6 : ℚ) ≤ stem.scale.y ∧ l5.position.y ≤ 31)]])
  | _, _, _, _, _, _ => none

/-- Per-frame random draws: leafRand n i supplies the two rotation comparison
draws of rendering.updateLeaves for leaf i at frame n. -/
structure Oracle where
  leafRand : Nat → Nat → ℚ × ℚ

/-- The stem as it stands after the stem gate of one frame of the render loop. -/
def stemFrame (stem : Part) : Part :=
  if stemInvalidated stem then updateStem stem else stem

/-- One pass of the frame closure in rendering.render. The checker reads the
live objects, so every gate after the stem gate sees the stem already
mutated this frame; the gates run in source order. -/
def stepFrame (o : Oracle) (lottery : List Bool) (n : Nat) (s : FlowerState) : Option FlowerState :=
  let stem := stemFrame s.stem
  match (if torusOrStamensInvalidated stem then updateTorusAndStamens s.torus s.stamens
         else some (s.torus, s.stamens)) with
  | none => none
  | some ts =>
    match petalsInvalidated stem s.petals with
    | none => none
    | some pInv =>
      match (if pInv then updatePetals s.petals else some s.petals) with
      | none => none
      | some petals =>
        match leavesInvalidities lottery stem s.leaves with
        | none => none
        | some linv =>
          some { stem := stem, torus := ts.1, stamens := ts.2, petals := petals,
                 leaves := updateLeaves (o.leafRand n) s.leaves linv }

/-- n frames of the render loop from state s, with the fixed per-instance
leaf lottery drawn at ValidityChecker construction. -/
def runFrames (o : Oracle) (lottery : List Bool) (s : FlowerState) : Nat → Option FlowerState
  | 0 => some s
  | n + 1 => (runFrames o lottery s n).bind (stepFrame o lottery n)

/-- Initial stem of objectLoading.loadStem: scale (1, 0.1, 0.1), shown. -/
def initialStem : Part :=
  { scale := { x := 1, y := 0.1, z := 0.1 }, position := { x := 0, y := 0, z := 0 },
    rotation := { x := 0, y := 0, z := 0 }, visible := true }

/-- The stem after n frames. The stem gate is the only writer of the stem, so
this sequence is exactly the stem component of the render loop. -/
def stemRun : Nat → Part
  | 0 => initialStem
  | n + 1 => stemFrame (stemRun n)

/-- Initial torus of objectLoading.loadTorus: scale 0.01, position
(0.5, 29.5, 0), rotation.x = -15, and shown from the start. -/
def initialTorus : Part :=
  { scale := { x := 0.01, y := 0.01, z := 0.01 }, position := { x := 0.5, y := 29.5, z := 0 },
    rotation := { x := -15, y := 0, z := 0 }, visible := true }

/-- The ten stamen positions of objectLoading.loadStamens. -/
def stamenPositions : List Vec3 :=
  [{ x := -0.5, y := 29.5, z := 0 }, { x := 0, y := 29.5, z := 0 }, { x := 1, y := 29.5, z := 0 },
   { x := 1.5, y := 29.5, z := 0 }, { x := -0.25, y := 30, z := -0.5 }, { x := 0.5, y := 30, z := -0.5 },
   { x := 1.25, y := 30, z := -0.5 }, { x := -0.25, y := 29, z := 0.5 }, { x := 0.5, y := 29, z := 0.5 },
   { x := 1.25, y := 29, z := 0.5 }]

/-- The ten stamens of objectLoading.loadStamens: scale 0.02, rotation.x = 0.9,
visible (the loader never hides them). -/
def initialStamens : List Part :=
  stamenPositions.map (fun pos =>
    { scale := { x := 0.02, y := 0.02, z := 0.02 }, position := pos,
      rotation := { x := 0.9, y := 0, z := 0 }, visible := true })

/-- The six petals of objectLoading.loadPetals: scale 0.1, position (1, 25, -1),
visible. The rotation.y values are multiples of a third of pi, hence
irrational; they are parameters here, and no verified claim reads them. -/
def initialPetals (rotY : Nat → ℚ) : List Part :=
  [{ scale := { x := 0.1, y := 0.1, z := 0.1 }, position := { x := 1, y := 25, z := -1 },
     rotation := { x := 1.5, y := rotY 0, z := 0 }, visible := true },
   { scale := { x := 0.1, y := 0.1, z := 0.1 }, position := { x := 1, y := 25, z := -1 },
     rotation := { x := 1.7, y := rotY 1, z := -0.6 }, visible := true },
   { scale := { x := 0.1, y := 0.1, z := 0.1 }, position := { x := 1, y := 25, z := -1 },
     rotation := { x := -0.7, y := rotY 2, z := 0.6 }, visible := true },
   { scale := { x := 0.1, y := 0.1, z := 0.1 }, position := { x := 1, y := 25, z := -1 },
     rotation := { x := -0.1, y := rotY 3, z := 0 }, visible := true },
   { scale := { x := 0.1, y := 0.1, z := 0.1 }, position := { x := 1, y := 25, z := -1 },
     rotation := { x := -0.9, y := rotY 4, z := -2 }, visible := true },
   { scale := { x := 0.1, y := 0.1, z := 0.1 }, position := { x := 1, y := 25, z := -1 },
     rotation := { x := 1.7, y := rotY 5, z := 1.5 }, visible := true }]

/-- The six leaf positions of objectLoading.loadLeaves. -/
def leafPositions : List Vec3 :=
  [{ x := 0.5, y := 5, z := 0.5 }, { x := 0.5, y := 7, z := -0.25 }, { x := 0.5, y := 10, z := -0.5 },
   { x := 0.5, y := 15, z := -1.75 }, { x := 0.75, y := 19, z := -2.75 }, { x := 0.5, y := 23, z := -3.5 }]

/-- The six leaves of objectLoading.loadLeaves: scale 0.1, hidden, fixed
positions; the rotations are random multiples of pi and are parameters
here (no verified claim reads them). -/
def initialLeaves (rotX rotY : Nat → ℚ) : List Part :=
  (List.range 6).map (fun i =>
    { scale := { x := 0.1, y := 0.1, z := 0.1 }, position := (leafPositions[i]?).getD { x := 0, y := 0, z := 0 },
      rotation := { x := rotX i, y := rotY i, z := 0 }, visible := false })

/-- The assembled instance exactly as the control flow hands it to
rendering.render, before the first frame. -/
def initialState (petalRotY leafRotX leafRotY : Nat → ℚ) : FlowerState :=
  { stem := initialStem, torus := initialTorus, stamens := initialStamens,
    petals := initialPetals petalRotY, leaves := initialLeaves leafRotX leafRotY }

/-- One fix-up assignment of the ValidityChecker constructor loop. The index
expression is util.random(0, length), a real-valued draw with no flooring: a
draw that happens to equal the integer i is some i and writes slot i, while a
fractional draw (none) creates a non-index property on the JS array, leaving
every boolean slot, and hence the filter count, unchanged. -/
def lotteryFixBody (draw : Option Nat) (lottery : List Bool) : List Bool :=
  match draw with
  | none => lottery
  | some i => lottery.set i (decide (countTrue lottery < minLeaves))

/-- The while condition of the constructor fix-up loop. -/
def lotteryLoopActive (lottery : List Bool) : Bool :=
  decide (countTrue lottery < minLeaves) || decide (maxLeaves < countTrue lottery)

/-- n iterations of the constructor fix-up loop; draws k is the index draw of
the k-th remaining iteration. The loop exits early once the count is in band. -/
def lotteryFixIter (draws : Nat → Option Nat) : Nat → List Bool → List Bool
  | 0, l => l
  | n + 1, l =>
    if lotteryLoopActive l then lotteryFixIter draws n (lotteryFixBody (draws n) l) else l

/-- Modelled from the spec: the closed edge sequence of a polygon for the
Placement Engine of section 4.3, which is absent from src. -/
def polygonEdges (poly : List (ℚ × ℚ)) : List ((ℚ × ℚ) × (ℚ × ℚ)) :=
  match poly with
  | [] => []
  | v :: _ => poly.zip (poly.drop 1 ++ [v])

/-- Modelled from the spec: one edge of the even-odd crossing test; the edge
counts when it straddles the horizontal through p and the crossing lies
strictly right of p. -/
def edgeCrosses (p : ℚ × ℚ) (e : (ℚ × ℚ) × (ℚ × ℚ)) : Bool :=
  (decide (p.2 < e.1.2) != decide (p.2 < e.2.2)) &&
    decide (p.1 < (e.2.1 - e.1.1) * (p.2 - e.1.2) / (e.2.2 - e.1.2) + e.1.1)

/-- Modelled from the spec: the standard even-odd point-in-polygon test via
edge-crossing parity, in the horizontal (x, z) plane. -/
def pointInPolygon (p : ℚ × ℚ) (poly : List (ℚ × ℚ)) : Bool :=
  (polygonEdges poly).foldl (fun inside e => if edgeCrosses p e then !inside else inside) false

/-- Containment in any polygon of a set. -/
def pointInAnyPolygon (p : ℚ × ℚ) (polys : List (List (ℚ × ℚ))) : Bool :=
  polys.any (fun poly => pointInPolygon p poly)

/-- Modelled from the spec: the fixed 20 by 20 square footprint centered on a
prior instance stem position. -/
def footprintPolygon (c : ℚ × ℚ) : List (ℚ × ℚ) :=
  [(c.1 - 10, c.2 - 10), (c.1 + 10, c.2 - 10), (c.1 + 10, c.2 + 10), (c.1 - 10, c.2 + 10)]

/-- Modelled from the spec: one axis draw from the union of the two disjoint
ranges [-max, -min] and [min, max]; u in [0, 1) is the uniform source of the
magnitude and pos the side choice. -/
def sampleAxis (mn mx u : ℚ) (pos : Bool) : ℚ :=
  if pos then mn + u * (mx - mn) else -(mn + u * (mx - mn))

/-- One random placement draw: the two uniform magnitudes and two side picks. -/
structure SampleDraw where
  ux : ℚ
  sx : Bool
  uz : ℚ
  sz : Bool

/-- The sampling bounds of placeNewInstance (the spec default is 20 to 150 on
both axes). -/
structure Bounds where
  xMin : ℚ
  xMax : ℚ
  zMin : ℚ
  zMax : ℚ

/-- Modelled from the spec: one sampling attempt of placeNewInstance. The
offset is accepted exactly when the shifted reference point lies in no
polygon of the combined set. -/
def placeAttempt (b : Bounds) (refX refZ : ℚ) (polys : List (List (ℚ × ℚ)))
    (d : SampleDraw) : Option (ℚ × ℚ) :=
  let dx := sampleAxis b.xMin b.xMax d.ux d.sx
  let dz := sampleAxis b.zMin b.zMax d.uz d.sz
  if pointInAnyPolygon (refX + dx, refZ + dz) polys then none else some (dx, dz)

/-- Modelled from the spec: the placeNewInstance retry loop (absent from src),
with fuel bounding the attempt count and draws the random source; the
combined polygon set is the static restricted polygons plus the footprint of
every prior instance. -/
def placeNewInstance (b : Bounds) (refX refZ : ℚ) (restricted : List (List (ℚ × ℚ)))
    (priors : List (ℚ × ℚ)) (draws : Nat → SampleDraw) : Nat → Option (ℚ × ℚ)
  | 0 => none
  | n + 1 =>
    match placeAttempt b refX refZ (restricted ++ priors.map footprintPolygon) (draws n) with
    | some dxz => some dxz
    | none => placeNewInstance b refX refZ restricted priors draws n

/-- An oracle whose leaf rotation draws are all zero: one concrete random seed. -/
def zeroOracle : Oracle := { leafRand := fun _ _ => (0, 0) }

/-- A concrete six-entry leaf lottery with exactly one selected leaf. -/
def oneLeafLottery : List Bool := [true, false, false, false, false, false]

/-- The concrete initial instance with every irrational or random rotation
parameter instantiated to zero. -/
def state0 : FlowerState := initialState (fun _ => 0) (fun _ => 0) (fun _ => 0)

/-- A torus whose growth and ride guards are all exhausted (used as a witness
input). -/
def settledTorus : Part :=
  { scale := { x := 1, y := 1, z := 1 }, position := { x := 0.5, y := 50, z := 0 },
    rotation := { x := -15, y := 0, z := 0 }, visible := true }

/-- A stamen whose growth guard is exhausted (used as a witness input). -/
def settledStamen : Part :=
  { scale := { x := 1, y := 1, z := 1 }, position := { x := 0, y := 50, z := 0 },
    rotation := { x := 0.9, y := 0, z := 0 }, visible := true }

/-- Ten settled stamens (used as a witness input). -/
def settledStamens : List Part := List.replicate 10 settledStamen

/-- A state whose single leaf is already shown (used as a witness input). -/
def leafShownState : FlowerState :=
  { stem := initialStem, torus := initialTorus, stamens := initialStamens,
    petals := initialPetals (fun _ => 0), leaves := [settledStamen] }

/-- Leaf 1 of the concrete initial instance with zeroed rotation parameters. -/
def leaf1AtStart : Part :=
  { scale := { x := 0.1, y := 0.1, z := 0.1 }, position := { x := 0.5, y := 7, z := -0.25 },
    rotation := { x := 0, y := 0, z := 0 }, visible := false }

/-- A square polygon far away from the samples a half-draw produces (used as
a witness input for placement). -/
def farSquare : List (ℚ × ℚ) := [(200, 200), (210, 200), (210, 210), (200, 210)]

/-- The midpoint placement draw: both magnitudes at one half, both sides
positive (used as a witness input). -/
def halfDraw : SampleDraw := { ux := 0.5, sx := true, uz := 0.5, sz := true }

/-- The spec default sampling bounds of placeNewInstance. -/
def defaultBounds : Bounds := { xMin := 20, xMax := 150, zMin := 20, zMax := 150 }

/-- A petal whose lead position sits at y = 42 (used as a witness input). -/
def petalAt42 : Part :=
  { scale := { x := 0.1, y := 0.1, z := 0.1 }, position := { x := 1, y := 42, z := -1 },
    rotation := { x := 1.5, y := 0, z := 0 }, visible := true }

/-- A stem whose scale.y sits at 0.65 (used as a witness input). -/
def stemAt065 : Part :=
  { scale := { x := 1, y := 0.65, z := 0.6 }, position := { x := 0, y := 0, z := 0 },
    rotation := { x := 0, y := 0, z := 0 }, visible := true }

/-! Helper lemmas. -/

theorem optGetElem_isSome {α : Type} (l : List α) (i : Nat) : l[i]?.isSome ↔ i < l.length := by
  constructor
  · intro h
    by_contra hlt
    rw [List.getElem?_eq_none (Nat.le_of_not_lt hlt)] at h
    simp at h
  · intro h
    rw [List.getElem?_eq_getElem h]
    rfl

theorem optGetElem_lt {α : Type} (l : List α) (i : Nat) (a : α) (h : l[i]? = some a) :
    i < l.length := by
  have := (optGetElem_isSome l i).mp (by rw [h]; rfl)
  exact this

theorem countTrue_cons (x : Bool) (l : List Bool) :
    countTrue (x :: l) = (if x then 1 else 0) + countTrue l := by
  cases x <;> simp [countTrue, List.filter_cons, Nat.add_comm]

theorem countTrue_le_length (l : List Bool) : countTrue l ≤ l.length :=
  List.length_filter_le _ l

theorem eq_replicate_of_countTrue_eq_length :
    ∀ (l : List Bool), countTrue l = l.length → l = List.replicate l.length true
  | [], _ => rfl
  | x :: l, h => by
    cases x with
    | false =>
      exfalso
      have h1 : countTrue (false :: l) = countTrue l := by simp [countTrue_cons]
      have h2 := countTrue_le_length l
      rw [h1] at h
      simp only [List.length_cons] at h
      omega
    | true =>
      have h1 : countTrue (true :: l) = 1 + countTrue l := by simp [countTrue_cons]
      rw [List.length_cons] at h
      rw [h1] at h
      have htail := eq_replicate_of_countTrue_eq_length l (by omega)
      show true :: l = List.replicate (true :: l).length true
      rw [List.length_cons, List.replicate_succ]
      exact congrArg (fun t => true :: t) htail

theorem countTrue_le_of_pointwise (xs : List Bool) :
    ∀ (ys : List Bool), xs.length = ys.length →
      (∀ i : Nat, xs[i]? = some true → ys[i]? = some true) → countTrue xs ≤ countTrue ys := by
  induction xs with
  | nil => intro ys _ _; simp [countTrue]
  | cons x xs ih =>
    intro ys h hp
    cases ys with
    | nil => simp at h
    | cons y ys =>
      have htail := ih ys (by simpa using h) (fun i hi => by
        have := hp (i + 1) (by simpa using hi)
        simpa using this)
      have hhead : x = true → y = true := by
        intro hx
        have := hp 0 (by simp [hx])
        simpa using this
      rw [countTrue_cons, countTrue_cons]
      cases x with
      | false =>
        cases y with
        | false => simpa using htail
        | true => simp; omega
      | true =>
        rw [hhead rfl]
        simpa using htail

theorem clearFalses_length : ∀ (r a : List Bool), (clearFalses r a).length = r.length
  | [], a => by cases a <;> rfl
  | r :: rs, [] => rfl
  | r :: rs, a :: bs => by
    simp only [clearFalses, List.length_cons, clearFalses_length rs bs]

theorem clearFalses_getElem? :
    ∀ (r a : List Bool) (i : Nat),
      (clearFalses r a)[i]? = (r[i]?).map (fun rv => rv && ((a[i]?).getD true))
  | [], a, i => by cases a <;> simp [clearFalses]
  | r :: rs, [], i => by
    cases h : (r :: rs)[i]? <;> simp [clearFalses, h]
  | r :: rs, a :: bs, 0 => by simp [clearFalses]
  | r :: rs, a :: bs, i + 1 => by
    simpa [clearFalses] using clearFalses_getElem? rs bs i

theorem foldl_clearFalses_length :
    ∀ (arrays : List (List Bool)) (acc : List Bool),
      (arrays.foldl clearFalses acc).length = acc.length
  | [], acc => rfl
  | a :: rest, acc => by
    rw [List.foldl_cons, foldl_clearFalses_length rest (clearFalses acc a), clearFalses_length]

theorem foldl_clearFalses_getElem? :
    ∀ (arrays : List (List Bool)) (acc : List Bool) (i : Nat),
      (arrays.foldl clearFalses acc)[i]? =
        (acc[i]?).map (fun b => b && arrays.all (fun a => (a[i]?).getD true))
  | [], acc, i => by cases h : acc[i]? <;> simp [h]
  | a :: rest, acc, i => by
    rw [List.foldl_cons, foldl_clearFalses_getElem? rest (clearFalses acc a) i,
      clearFalses_getElem?]
    cases h : acc[i]? <;> simp [h, Bool.and_assoc]

theorem andBooleanArrays_length (a0 : List Bool) (rest : List (List Bool)) :
    (andBooleanArrays (a0 :: rest)).length = a0.length := by
  simp only [andBooleanArrays, foldl_clearFalses_length, List.length_replicate]

theorem andBooleanArrays_getElem? (a0 : List Bool) (rest : List (List Bool)) (i : Nat) :
    (andBooleanArrays (a0 :: rest))[i]? =
      if i < a0.length then some ((a0 :: rest).all (fun a => (a[i]?).getD true)) else none := by
  simp only [andBooleanArrays, foldl_clearFalses_getElem?, List.getElem?_replicate]
  split <;> simp

/-! Claim C7. -/

/-- C7: util.andBooleanArrays on zero vectors returns the empty sequence; on
one or more boolean vectors of equal length n it returns a vector of length
n whose entry at each index is the logical AND of all the inputs at that
index, and consequently its true-count never exceeds the minimum true-count
of any input. -/
theorem C7_andBooleanArrays_spec :
    andBooleanArrays [] = [] ∧
    ∀ (arrays : List (List Bool)) (n : Nat), arrays ≠ [] →
      (∀ a ∈ arrays, a.length = n) →
      (andBooleanArrays arrays).length = n ∧
      (∀ (i : Nat) (v : Bool), (andBooleanArrays arrays)[i]? = some v →
        (v = true ↔ ∀ a ∈ arrays, a[i]? = some true)) ∧
      (∀ a ∈ arrays, countTrue (andBooleanArrays arrays) ≤ countTrue a) := by
  refine ⟨rfl, ?_⟩
  intro arrays n hne hlen
  obtain ⟨a0, rest, rfl⟩ : ∃ a0 rest, arrays = a0 :: rest := by
    cases arrays with
    | nil => exact absurd rfl hne
    | cons a0 rest => exact ⟨a0, rest, rfl⟩
  · have h0 : a0.length = n := hlen a0 (by simp)
    refine ⟨by rw [andBooleanArrays_length, h0], ?_, ?_⟩
    · intro i v hv
      rw [andBooleanArrays_getElem?] at hv
      by_cases hi : i < a0.length
      · rw [if_pos hi] at hv
        have hv' : v = (a0 :: rest).all (fun a => (a[i]?).getD true) :=
          (Option.some.inj hv).symm
        rw [hv', List.all_eq_true]
        constructor
        · intro hall a ha
          have hlt : i < a.length := by rw [hlen a ha, ← h0]; exact hi
          obtain ⟨w, hw⟩ := Option.isSome_iff_exists.mp ((optGetElem_isSome a i).mpr hlt)
          have := hall a ha
          rw [hw] at this ⊢
          simpa using this
        · intro hall a ha
          rw [hall a ha]
          rfl
      · rw [if_neg hi] at hv
        exact absurd hv (by simp)
    · intro a ha
      apply countTrue_le_of_pointwise
      · rw [andBooleanArrays_length, h0, hlen a ha]
      · intro i hi
        rw [andBooleanArrays_getElem?] at hi
        by_cases hlt : i < a0.length
        · rw [if_pos hlt] at hi
          have : (a0 :: rest).all (fun a => (a[i]?).getD true) = true := by
            simpa using hi
          rw [List.all_eq_true] at this
          have hga := this a ha
          have hlt' : i < a.length := by rw [hlen a ha, ← h0]; exact hlt
          obtain ⟨w, hw⟩ := Option.isSome_iff_exists.mp ((optGetElem_isSome a i).mpr hlt')
          rw [hw] at hga ⊢
          simpa using hga
        · rw [if_neg hlt] at hi
          exact absurd hi (by simp)

/-- Witness for C7 at two concrete equal-length vectors. -/
theorem C7_andBooleanArrays_spec_witness :
    (([[true, false, true], [false, true, true]] : List (List Bool)) ≠ []) ∧
    (andBooleanArrays [[true, false, true], [false, true, true]]).length = 3 :=
  ⟨by decide,
   (C7_andBooleanArrays_spec.2 [[true, false, true], [false, true, true]] 3
     (by decide) (by decide)).1⟩

/-! Claim C1. -/

/-- C1: refuted on the code, which contradicts the intent its own comment
states (restrict the number of leaves to a limited range). The constructor
fix-up loop indexes the lottery with util.random(0, length), a real-valued
draw with no flooring; on an all-false initial draw and fractional index
draws (almost every draw is fractional) the assignment never changes a
boolean slot, so after any number of iterations the true-count is still 0,
outside [minLeaves, maxLeaves], and the while condition never clears:
construction does not terminate and no iteration moves the count. -/
theorem C1_lotteryFix_stuck (n : Nat) :
    countTrue (lotteryFixIter (fun _ => none) n (List.replicate 6 false)) = 0 ∧
    lotteryLoopActive (lotteryFixIter (fun _ => none) n (List.replicate 6 false)) = true := by
  have hfix : ∀ m, lotteryFixIter (fun _ => none) m (List.replicate 6 false) =
      List.replicate 6 false := by
    intro m
    induction m with
    | zero => rfl
    | succ k ih =>
      have hact : lotteryLoopActive (List.replicate 6 false) = true := by decide
      calc lotteryFixIter (fun _ => none) (k + 1) (List.replicate 6 false)
          = lotteryFixIter (fun _ => none) k
              (lotteryFixBody none (List.replicate 6 false)) := by
            rw [lotteryFixIter, if_pos hact]
        _ = List.replicate 6 false := ih
  rw [hfix n]
  exact ⟨by decide, by decide⟩

/-! Claim C5. -/

theorem updateStem_scale_y (p : Part) :
    (updateStem p).scale.y = if p.scale.y ≤ 1 then p.scale.y + 0.001 else p.scale.y := by
  simp only [updateStem]
  split <;> split <;> simp

theorem stemFrame_scale_y (p : Part) :
    (stemFrame p).scale.y = if p.scale.y ≤ 1 then p.scale.y + 0.001 else p.scale.y := by
  rw [stemFrame, stemInvalidated]
  by_cases h : p.scale.y ≤ 1
  · rw [if_pos (by simpa using h), updateStem_scale_y]
  · rw [if_neg (by simpa using h), if_neg h]

theorem stemRun_formula : ∀ n, n ≤ 900 → (stemRun n).scale.y = 1 / 10 + n / 1000
  | 0, _ => by
    show initialStem.scale.y = 1 / 10 + (0 : Nat) / 1000
    norm_num [initialStem]
  | n + 1, h => by
    have hy := stemRun_formula n (by omega)
    have hle : (stemRun n).scale.y ≤ 1 := by
      rw [hy]
      have hn : (n : ℚ) ≤ 899 := by exact_mod_cast (by omega : n ≤ 899)
      linarith
    show (stemFrame (stemRun n)).scale.y = 1 / 10 + ((n + 1 : Nat) : ℚ) / 1000
    rw [stemFrame_scale_y, if_pos hle, hy]
    push_cast
    ring_nf

theorem stemRun_bounded : ∀ n, (stemRun n).scale.y ≤ 1 + 0.001
  | 0 => by norm_num [stemRun, initialStem]
  | n + 1 => by
    have ih := stemRun_bounded n
    show (stemFrame (stemRun n)).scale.y ≤ 1 + 0.001
    rw [stemFrame_scale_y]
    split
    · next h => linarith
    · exact ih

/-- C5: starting from scale.y = 0.1 with one updateStem application per
eligible frame (eligible means scale.y at most 1), the stem scale.y is
exactly 1 after exactly 900 eligible frames, strictly below 1 at every
earlier frame, and at every frame of the run it never exceeds 1 + 0.001,
in exact rational arithmetic. -/
theorem C5_stem_growth :
    (stemRun 900).scale.y = 1 ∧
    (∀ n, n < 900 → (stemRun n).scale.y < 1) ∧
    (∀ n, (stemRun n).scale.y ≤ 1 + 0.001) := by
  refine ⟨?_, ?_, stemRun_bounded⟩
  · rw [stemRun_formula 900 (le_refl _)]
    norm_num
  · intro n hn
    rw [stemRun_formula n (by omega)]
    have : (n : ℚ) ≤ 899 := by exact_mod_cast (by omega : n ≤ 899)
    linarith

/-- Witness for C5 at frame 0. -/
theorem C5_stem_growth_witness : (0 : Nat) < 900 ∧ (stemRun 0).scale.y < 1 :=
  ⟨by decide, C5_stem_growth.2.1 0 (by decide)⟩

/-! Claim C8. -/

/-- C8: for any instance state with stem.scale.y = 0.65 and lead petal
position.y = 42, ValidityChecker.petalsInvalidated returns false: the scale
guard at 0.61 holds but the position guard at 41 fails. -/
theorem C8_petalsInvalidated_position_guard (stem : Part) (petals : List Part) (p0 : Part)
    (hscale : stem.scale.y = 0.65) (hp0 : petals[0]? = some p0)
    (hy : p0.position.y = 42) :
    ((0.61 : ℚ) ≤ stem.scale.y) ∧ petalsInvalidated stem petals = some false := by
  have hguard : (0.61 : ℚ) ≤ stem.scale.y := by rw [hscale]; norm_num
  refine ⟨hguard, ?_⟩
  rw [petalsInvalidated, if_pos hguard, hp0]
  show some (decide (p0.position.y ≤ 41)) = some false
  have : decide (p0.position.y ≤ 41) = false := by
    rw [hy]
    norm_num
  rw [this]

/-- Witness for C8 at a concrete stem and petal list. -/
theorem C8_petalsInvalidated_position_guard_witness :
    stemAt065.scale.y = 0.65 ∧ petalsInvalidated stemAt065 [petalAt42] = some false :=
  ⟨rfl, (C8_petalsInvalidated_position_guard stemAt065 [petalAt42] petalAt42 rfl rfl rfl).2⟩

/-! Claim C9. -/

theorem setPetalRotation_isSome (petals : List Part) (i : Nat) :
    (setPetalRotation petals i).isSome ↔ i < petals.length := by
  rw [setPetalRotation]
  cases h : petals[i]? with
  | none =>
    simp only [Option.isSome_none, Bool.false_eq_true, false_iff]
    intro hlt
    rw [List.getElem?_eq_getElem hlt] at h
    simp at h
  | some p =>
    simp only [Option.isSome_some, true_iff]
    exact optGetElem_lt petals i p h

theorem setPetalRotation_length (petals out : List Part) (i : Nat)
    (h : setPetalRotation petals i = some out) : out.length = petals.length := by
  rw [setPetalRotation] at h
  cases hg : petals[i]? with
  | none => rw [hg] at h; exact absurd h (by simp)
  | some p =>
    rw [hg] at h
    have : petals.set i { p with rotation := petalRotation i p.rotation } = out := by
      simpa using h
    rw [← this, List.length_set]

theorem foldlM_setPetalRotation_length :
    ∀ (idxs : List Nat) (ps out : List Part),
      List.foldlM setPetalRotation ps idxs = some out → out.length = ps.length
  | [], ps, out, h => by
    have hpo : ps = out := by simpa using h
    rw [hpo]
  | i :: idxs, ps, out, h => by
    rw [List.foldlM_cons] at h
    obtain ⟨ps1, h1, h2⟩ := Option.bind_eq_some.mp h
    rw [foldlM_setPetalRotation_length idxs ps1 out h2, setPetalRotation_length ps ps1 i h1]

theorem foldlM_setPetalRotation_isSome :
    ∀ (idxs : List Nat) (ps : List Part),
      (List.foldlM setPetalRotation ps idxs).isSome ↔ ∀ i ∈ idxs, i < ps.length
  | [], ps => ⟨fun _ i hi => absurd hi (by simp), fun _ => rfl⟩
  | i :: idxs, ps => by
    rw [List.foldlM_cons]
    constructor
    · intro h
      obtain ⟨out, hout⟩ := Option.isSome_iff_exists.mp h
      obtain ⟨ps1, h1, h2⟩ := Option.bind_eq_some.mp hout
      intro j hj
      rcases List.mem_cons.mp hj with hj0 | hjr
      · subst hj0
        exact (setPetalRotation_isSome ps j).mp (by rw [h1]; rfl)
      · have hrec := (foldlM_setPetalRotation_isSome idxs ps1).mp (by rw [h2]; rfl) j hjr
        rwa [setPetalRotation_length ps ps1 i h1] at hrec
    · intro h
      have hi : i < ps.length := h i (by simp)
      obtain ⟨ps1, hps1⟩ := Option.isSome_iff_exists.mp ((setPetalRotation_isSome ps i).mpr hi)
      rw [hps1]
      show (List.foldlM setPetalRotation ps1 idxs).isSome = true
      rw [foldlM_setPetalRotation_isSome idxs ps1]
      intro j hj
      rw [setPetalRotation_length ps ps1 i hps1]
      exact h j (by simp [hj])

theorem petalsLift_length (petals : List Part) (p0 : Part) :
    (petalsLift petals p0).length = petals.length := by
  rw [petalsLift]; split <;> simp

theorem petalsGrow_length (petals : List Part) (q0 : Part) :
    (petalsGrow petals q0).length = petals.length := by
  rw [petalsGrow]; split <;> simp

theorem updatePetals_eq_none (petals : List Part) (h0 : petals[0]? = none) :
    updatePetals petals = none := by
  simp only [updatePetals, h0]

theorem updatePetals_eq_fold (petals : List Part) (p0 q0 : Part)
    (h0 : petals[0]? = some p0) (h1 : (petalsLift petals p0)[0]? = some q0) :
    updatePetals petals =
      List.foldlM setPetalRotation (petalsGrow (petalsLift petals p0) q0) [0, 1, 2, 3, 4, 5] := by
  simp only [updatePetals, h0, h1]

theorem updatePetals_isSome (petals : List Part) :
    (updatePetals petals).isSome ↔ 6 ≤ petals.length := by
  cases h0 : petals[0]? with
  | none =>
    have hz : petals.length = 0 := by
      by_contra hne
      rw [List.getElem?_eq_getElem (by omega : 0 < petals.length)] at h0
      simp at h0
    rw [updatePetals_eq_none petals h0]
    simp [hz]
  | some p0 =>
    have hlt0 : 0 < petals.length := optGetElem_lt petals 0 p0 h0
    have hlt1 : 0 < (petalsLift petals p0).length := by
      rw [petalsLift_length]; exact hlt0
    obtain ⟨q0, h1⟩ := Option.isSome_iff_exists.mp ((optGetElem_isSome _ 0).mpr hlt1)
    rw [updatePetals_eq_fold petals p0 q0 h0 h1]
    refine Iff.trans (foldlM_setPetalRotation_isSome [0, 1, 2, 3, 4, 5] _) ?_
    rw [petalsGrow_length, petalsLift_length]
    constructor
    · intro h
      have := h 5 (by simp)
      omega
    · intro h i hi
      have h5 : i ≤ 5 := by
        simp only [List.mem_cons, List.not_mem_nil, or_false] at hi
        rcases hi with rfl | rfl | rfl | rfl | rfl | rfl <;> omega
      omega

/-- C9: rendering.updatePetals reads petals[0] through petals[5]
unconditionally on every call, so it is well defined exactly when the petal
sequence has at least six entries; for the lengths 4 and 5 the data model
otherwise permits, the indexing runs past the end of the sequence and the
update is undefined. -/
theorem C9_updatePetals_needs_six (petals : List Part) :
    ((updatePetals petals).isSome ↔ 6 ≤ petals.length) ∧
    (petals.length = 4 ∨ petals.length = 5 → updatePetals petals = none) := by
  refine ⟨updatePetals_isSome petals, ?_⟩
  intro hlen
  cases hout : updatePetals petals with
  | none => rfl
  | some out =>
    exfalso
    have h6 := (updatePetals_isSome petals).mp (by rw [hout]; rfl)
    rcases hlen with h | h <;> omega

/-- Witness for C9 at a concrete four-petal sequence. -/
theorem C9_updatePetals_needs_six_witness :
    ([petalAt42, petalAt42, petalAt42, petalAt42] : List Part).length = 4 ∧
    updatePetals [petalAt42, petalAt42, petalAt42, petalAt42] = none :=
  ⟨rfl, (C9_updatePetals_needs_six [petalAt42, petalAt42, petalAt42, petalAt42]).2 (Or.inl rfl)⟩

/-! Frame step inversion lemmas. -/

theorem stepFrame_inv (o : Oracle) (lottery : List Bool) (n : Nat) (s s' : FlowerState)
    (h : stepFrame o lottery n s = some s') :
    ∃ ts pInv petals linv,
      (if torusOrStamensInvalidated (stemFrame s.stem) then updateTorusAndStamens s.torus s.stamens
       else some (s.torus, s.stamens)) = some ts ∧
      petalsInvalidated (stemFrame s.stem) s.petals = some pInv ∧
      (if pInv then updatePetals s.petals else some s.petals) = some petals ∧
      leavesInvalidities lottery (stemFrame s.stem) s.leaves = some linv ∧
      s' = { stem := stemFrame s.stem, torus := ts.1, stamens := ts.2, petals := petals,
             leaves := updateLeaves (o.leafRand n) s.leaves linv } := by
  simp only [stepFrame] at h
  split at h
  · exact absurd h (by simp)
  · rename_i ts hts
    split at h
    · exact absurd h (by simp)
    · rename_i pInv hpInv
      split at h
      · exact absurd h (by simp)
      · rename_i petals hpet
        split at h
        · exact absurd h (by simp)
        · rename_i linv hlinv
          exact ⟨ts, pInv, petals, linv, hts, hpInv, hpet, hlinv, (Option.some.inj h).symm⟩

theorem runFrames_succ_inv (o : Oracle) (lottery : List Bool) (s : FlowerState) (n : Nat)
    (s' : FlowerState) (h : runFrames o lottery s (n + 1) = some s') :
    ∃ t, runFrames o lottery s n = some t ∧ stepFrame o lottery n t = some s' := by
  rw [runFrames] at h
  exact Option.bind_eq_some.mp h

/-- The stem component of the full frame loop is exactly the stemRun
sequence the stem claims are stated over: no other gate writes the stem. -/
theorem runFrames_stem (o : Oracle) (lottery : List Bool) (pR lX lY : Nat → ℚ) :
    ∀ (n : Nat) (s' : FlowerState),
      runFrames o lottery (initialState pR lX lY) n = some s' → s'.stem = stemRun n
  | 0, s', h => by
    rw [← Option.some.inj h]
    rfl
  | n + 1, s', h => by
    obtain ⟨t, ht, hstep⟩ := runFrames_succ_inv o lottery _ n s' h
    obtain ⟨ts, pInv, petals, linv, _, _, _, _, rfl⟩ := stepFrame_inv o lottery n t s' hstep
    show stemFrame t.stem = stemRun (n + 1)
    rw [runFrames_stem o lottery pR lX lY n t ht]
    rfl

theorem stamensGate_inv (torus1 : Part) (stamens1 : List Part) (out : Part × List Part)
    (h : stamensGate torus1 stamens1 = some out) : out.1 = torus1 := by
  simp only [stamensGate] at h
  split at h
  · exact absurd h (by simp)
  · rw [← Option.some.inj h]

theorem torusGrow_visible (t : Part) : (torusGrow t).visible = t.visible := by
  rw [torusGrow]; split <;> rfl

theorem torusGrow_position (t : Part) : (torusGrow t).position = t.position := by
  rw [torusGrow]; split <;> rfl

theorem torusLift_visible (t : Part) : (torusLift t).visible = t.visible := rfl

theorem liftStamen_scale (s : Part) : (liftStamen s).scale = s.scale := rfl

theorem liftStamen_visible (s : Part) : (liftStamen s).visible = s.visible := rfl

theorem growStamen_visible (s : Part) : (growStamen s).visible = s.visible := rfl

theorem growStamen_position (s : Part) : (growStamen s).position = s.position := rfl

theorem updateTorusAndStamens_fst_visible (torus : Part) (stamens : List Part)
    (out : Part × List Part) (h : updateTorusAndStamens torus stamens = some out) :
    out.1.visible = torus.visible := by
  simp only [updateTorusAndStamens] at h
  split at h
  · rw [stamensGate_inv _ _ _ h, torusLift_visible, torusGrow_visible]
  · rw [stamensGate_inv _ _ _ h, torusGrow_visible]

/-! updateLeaves pointwise characterization. -/

theorem updateLeavesGo_getElem? (rand : Nat → ℚ × ℚ) (invs : List Bool) :
    ∀ (leaves : List Part) (j i : Nat),
      (updateLeavesGo rand invs j leaves)[i]? =
        (leaves[i]?).map (fun leaf =>
          if (invs[j + i]?).getD false then updateLeaf (rand (j + i)).1 (rand (j + i)).2 leaf
          else leaf)
  | [], j, i => by simp [updateLeavesGo]
  | leaf :: rest, j, 0 => by
    simp [updateLeavesGo]
  | leaf :: rest, j, i + 1 => by
    have ih := updateLeavesGo_getElem? rand invs rest (j + 1) i
    simp only [updateLeavesGo, List.getElem?_cons_succ]
    rw [ih]
    have harith : j + 1 + i = j + (i + 1) := by omega
    rw [harith]

theorem updateLeaves_getElem? (rand : Nat → ℚ × ℚ) (leaves : List Part) (invs : List Bool)
    (i : Nat) :
    (updateLeaves rand leaves invs)[i]? =
      (leaves[i]?).map (fun leaf =>
        if (invs[i]?).getD false then updateLeaf (rand i).1 (rand i).2 leaf else leaf) := by
  have := updateLeavesGo_getElem? rand invs leaves 0 i
  simpa [updateLeaves] using this

theorem updateLeaf_visible (r1 r2 : ℚ) (leaf : Part) : (updateLeaf r1 r2 leaf).visible = true := by
  simp only [updateLeaf]
  repeat' split
  all_goals rfl

theorem leavesInvalidities_shape (lottery : List Bool) (stem : Part) (leaves : List Part)
    (linv : List Bool) (h : leavesInvalidities lottery stem leaves = some linv) :
    ∃ conds, linv = andBooleanArrays [lottery, conds] := by
  simp only [leavesInvalidities] at h
  split at h
  · exact ⟨_, (Option.some.inj h).symm⟩
  · exact absurd h (by simp)

theorem andBool_pair_entry_false (lottery conds : List Bool) (i : Nat)
    (hl : lottery[i]? = some false) :
    (andBooleanArrays [lottery, conds])[i]? = some false := by
  have hi : i < lottery.length := optGetElem_lt _ _ _ hl
  rw [andBooleanArrays_getElem?, if_pos hi]
  have hall : (List.all [lottery, conds] fun a => (a[i]?).getD true) = false := by
    simp [hl]
  rw [hall]

/-! Claim C2. -/

theorem runFrames_torus_visible (o : Oracle) (lottery : List Bool) (s : FlowerState) :
    ∀ (n : Nat) (s' : FlowerState), runFrames o lottery s n = some s' →
      s'.torus.visible = s.torus.visible
  | 0, s', h => by rw [← Option.some.inj h]
  | n + 1, s', h => by
    obtain ⟨t, ht, hstep⟩ := runFrames_succ_inv o lottery s n s' h
    have ih := runFrames_torus_visible o lottery s n t ht
    obtain ⟨ts, pInv, petals, linv, hts, _, _, _, rfl⟩ := stepFrame_inv o lottery n t s' hstep
    show ts.1.visible = s.torus.visible
    by_cases hg : torusOrStamensInvalidated (stemFrame t.stem) = true
    · rw [if_pos hg] at hts
      rw [updateTorusAndStamens_fst_visible t.torus t.stamens ts hts]
      exact ih
    · rw [if_neg hg] at hts
      rw [← Option.some.inj hts]
      exact ih

/-- C2 counterexample: the claim as stated is false on the code. At frame 0
of the concrete run the stem scale.y is 0.1, so the threshold 0.7 does not
hold (frame 0 precedes any threshold frame), yet the torus visible flag is
already true: objectLoading.loadTorus shows the torus at construction. -/
theorem C2_torus_visible_counterexample :
    runFrames zeroOracle oneLeafLottery state0 0 = some state0 ∧
    state0.torus.visible = true ∧
    ¬ ((0.7 : ℚ) ≤ state0.stem.scale.y) := by
  refine ⟨rfl, rfl, ?_⟩
  show ¬ ((0.7 : ℚ) ≤ (0.1 : ℚ))
  norm_num

/-- C2 amended: the torus visible flag is true at every frame of the run
from construction on, with no regard to the stem scale; what the threshold
stem.scale.y at least 0.7 gates is the torus update itself: on a frame whose
(already updated) stem scale.y is below 0.7, the torus and the stamens are
left entirely unchanged. -/
theorem C2_torus_visible_gate (pR lX lY : Nat → ℚ) (o : Oracle) (lottery : List Bool)
    (n : Nat) (s' : FlowerState)
    (h : runFrames o lottery (initialState pR lX lY) n = some s') :
    s'.torus.visible = true ∧
    (∀ s'' : FlowerState, stepFrame o lottery n s' = some s'' →
      torusOrStamensInvalidated (stemFrame s'.stem) = false →
      s''.torus = s'.torus ∧ s''.stamens = s'.stamens) := by
  constructor
  · rw [runFrames_torus_visible o lottery _ n s' h]
    rfl
  · intro s'' hstep hgate
    obtain ⟨ts, pInv, petals, linv, hts, _, _, _, rfl⟩ := stepFrame_inv o lottery n s' s'' hstep
    rw [if_neg (by rw [hgate]; simp)] at hts
    have hpair := Option.some.inj hts
    constructor
    · show ts.1 = s'.torus
      rw [← hpair]
    · show ts.2 = s'.stamens
      rw [← hpair]

/-- Witness for C2 at frame 0 of the concrete run. -/
theorem C2_torus_visible_gate_witness : state0.torus.visible = true :=
  (C2_torus_visible_gate (fun _ => 0) (fun _ => 0) (fun _ => 0) zeroOracle oneLeafLottery
    0 state0 rfl).1

/-! Claim C6. -/

theorem stepFrame_leaf_entry (o : Oracle) (lottery : List Bool) (n : Nat)
    (s s' : FlowerState) (i : Nat) (h : stepFrame o lottery n s = some s')
    (hl : lottery[i]? = some false) :
    s'.leaves[i]? = s.leaves[i]? := by
  obtain ⟨ts, pInv, petals, linv, hts, hpInv, hpet, hlinv, rfl⟩ := stepFrame_inv o lottery n s s' h
  obtain ⟨conds, rfl⟩ := leavesInvalidities_shape lottery (stemFrame s.stem) s.leaves linv hlinv
  show (updateLeaves (o.leafRand n) s.leaves (andBooleanArrays [lottery, conds]))[i]? = s.leaves[i]?
  rw [updateLeaves_getElem?, andBool_pair_entry_false lottery conds i hl]
  cases hsl : s.leaves[i]? <;> simp

theorem initialLeaves_invisible (rotX rotY : Nat → ℚ) (i : Nat) (leaf : Part)
    (h : (initialLeaves rotX rotY)[i]? = some leaf) : leaf.visible = false := by
  simp only [initialLeaves, List.getElem?_map] at h
  cases hr : (List.range 6)[i]? with
  | none => rw [hr] at h; exact absurd h (by simp)
  | some j =>
    rw [hr] at h
    have := Option.some.inj (by simpa using h)
    rw [← this]

/-- C6: a leaf whose lottery entry is false is never shown: at every frame of
a run from the assembled initial instance, that leaf still carries the hidden
visibility it was loaded with, regardless of how far the stem scale.y
progresses (leavesInvalidities ANDs the lottery entry into the leaf
eligibility, and updateLeaves touches only eligible leaves). -/
theorem C6_unlucky_leaf_never_visible (pR lX lY : Nat → ℚ) (o : Oracle) (lottery : List Bool)
    (i n : Nat) (s' : FlowerState)
    (hl : lottery[i]? = some false)
    (h : runFrames o lottery (initialState pR lX lY) n = some s') :
    ∀ leaf, s'.leaves[i]? = some leaf → leaf.visible = false := by
  have key : ∀ (m : Nat) (t : FlowerState),
      runFrames o lottery (initialState pR lX lY) m = some t →
      t.leaves[i]? = (initialState pR lX lY).leaves[i]? := by
    intro m
    induction m with
    | zero =>
      intro t ht
      rw [← Option.some.inj ht]
    | succ k ih =>
      intro t ht
      obtain ⟨u, hu, hstep⟩ := runFrames_succ_inv o lottery _ k t ht
      rw [stepFrame_leaf_entry o lottery k u t i hstep hl, ih u hu]
  intro leaf hleaf
  rw [key n s' h] at hleaf
  exact initialLeaves_invisible lX lY i leaf hleaf

/-- Witness for C6 at leaf 1 of the concrete run, frame 0. -/
theorem C6_unlucky_leaf_never_visible_witness :
    oneLeafLottery[1]? = some false ∧ leaf1AtStart.visible = false :=
  ⟨rfl, C6_unlucky_leaf_never_visible (fun _ => 0) (fun _ => 0) (fun _ => 0) zeroOracle
    oneLeafLottery 1 0 state0 rfl rfl leaf1AtStart rfl⟩

/-! Claim C10. -/

theorem stepFrame_leaf_visible_mono (o : Oracle) (lottery : List Bool) (n : Nat)
    (s s' : FlowerState) (i : Nat) (h : stepFrame o lottery n s = some s')
    (hv : ∀ leaf, s.leaves[i]? = some leaf → leaf.visible = true) :
    ∀ leaf, s'.leaves[i]? = some leaf → leaf.visible = true := by
  obtain ⟨ts, pInv, petals, linv, hts, hpInv, hpet, hlinv, rfl⟩ := stepFrame_inv o lottery n s s' h
  intro leaf hleaf
  have hleaf' : (updateLeaves (o.leafRand n) s.leaves linv)[i]? = some leaf := hleaf
  rw [updateLeaves_getElem?] at hleaf'
  cases hsl : s.leaves[i]? with
  | none => rw [hsl] at hleaf'; exact absurd hleaf' (by simp)
  | some l0 =>
    rw [hsl] at hleaf'
    have heq := Option.some.inj (by simpa using hleaf')
    by_cases hb : (linv[i]?).getD false = true
    · rw [if_pos hb] at heq
      rw [← heq]
      exact updateLeaf_visible _ _ _
    · rw [if_neg hb] at heq
      rw [← heq]
      exact hv l0 hsl

/-- C10: leaf visibility is monotone over the frame step relation: once a
leaf is visible at some frame of a run, it is visible at every later frame,
because updateLeaves only ever sets the visible flag to true and no other
per-frame update touches leaf visibility. -/
theorem C10_leaf_visible_monotone (o : Oracle) (lottery : List Bool) (s0 : FlowerState)
    (i n m : Nat) (s s' : FlowerState)
    (hnm : n ≤ m)
    (hn : runFrames o lottery s0 n = some s)
    (hm : runFrames o lottery s0 m = some s')
    (hv : ∀ leaf, s.leaves[i]? = some leaf → leaf.visible = true) :
    ∀ leaf, s'.leaves[i]? = some leaf → leaf.visible = true := by
  obtain ⟨k, rfl⟩ := Nat.exists_eq_add_of_le hnm
  clear hnm
  induction k generalizing s' with
  | zero =>
    simp only [Nat.add_zero] at hm
    rw [hn] at hm
    rw [← Option.some.inj hm]
    exact hv
  | succ k ih =>
    have hm' : runFrames o lottery s0 ((n + k) + 1) = some s' := by
      rw [Nat.add_succ] at hm
      exact hm
    obtain ⟨t, ht, hstep⟩ := runFrames_succ_inv o lottery s0 (n + k) s' hm'
    exact stepFrame_leaf_visible_mono o lottery (n + k) t s' i hstep (ih t ht)

/-! Claim C3. -/

theorem stamensGate_eq (torus1 : Part) (stamens1 : List Part) (s0 : Part)
    (h0 : stamens1[0]? = some s0) :
    stamensGate torus1 stamens1 =
      some (torus1, if s0.scale.x ≤ (0.12 : ℚ) then stamens1.map growStamen else stamens1) := by
  simp only [stamensGate, h0]

theorem updateTorusAndStamens_snd_getElem (torus : Part) (stamens : List Part)
    (out : Part × List Part) (s0 : Part) (i : Nat)
    (h : updateTorusAndStamens torus stamens = some out) (h0 : stamens[0]? = some s0) :
    out.2[i]? = (stamens[i]?).map
      (stamenEffect (decide (torus.position.y ≤ (41.5 : ℚ))) (decide (s0.scale.x ≤ (0.12 : ℚ)))) := by
  simp only [updateTorusAndStamens, torusGrow_position] at h
  by_cases hpos : torus.position.y ≤ (41.5 : ℚ)
  · rw [if_pos hpos] at h
    have h0' : (stamens.map liftStamen)[0]? = some (liftStamen s0) := by
      rw [List.getElem?_map, h0]
      rfl
    rw [stamensGate_eq _ _ _ h0'] at h
    have hsnd : out.2 = if (liftStamen s0).scale.x ≤ (0.12 : ℚ)
        then (stamens.map liftStamen).map growStamen else stamens.map liftStamen := by
      rw [← Option.some.inj h]
    rw [liftStamen_scale] at hsnd
    rw [decide_eq_true hpos]
    by_cases hgrow : s0.scale.x ≤ (0.12 : ℚ)
    · rw [if_pos hgrow] at hsnd
      rw [hsnd, decide_eq_true hgrow, List.getElem?_map, List.getElem?_map]
      cases stamens[i]? <;> rfl
    · rw [if_neg hgrow] at hsnd
      rw [hsnd, decide_eq_false hgrow, List.getElem?_map]
      cases stamens[i]? <;> rfl
  · rw [if_neg hpos] at h
    rw [stamensGate_eq _ _ _ h0] at h
    have hsnd : out.2 = if s0.scale.x ≤ (0.12 : ℚ) then stamens.map growStamen else stamens := by
      rw [← Option.some.inj h]
    rw [decide_eq_false hpos]
    by_cases hgrow : s0.scale.x ≤ (0.12 : ℚ)
    · rw [if_pos hgrow] at hsnd
      rw [hsnd, decide_eq_true hgrow, List.getElem?_map]
      cases stamens[i]? <;> rfl
    · rw [if_neg hgrow] at hsnd
      rw [hsnd, decide_eq_false hgrow]
      cases hsi : stamens[i]? <;> rfl

theorem stamenEffect_visible (ride grow : Bool) (s : Part) :
    (stamenEffect ride grow s).visible = s.visible := by
  cases ride <;> cases grow <;> rfl

theorem stamenEffect_position_y (ride grow : Bool) (s : Part) :
    (stamenEffect ride grow s).position.y =
      if ride then s.position.y + 0.04 else s.position.y := by
  cases ride <;> cases grow <;> rfl

theorem stamenEffect_scale (ride grow : Bool) (s : Part) :
    (stamenEffect ride grow s).scale =
      if grow then { x := s.scale.x + 0.0003, y := s.scale.y + 0.0003, z := s.scale.z + 0.0003 }
      else s.scale := by
  cases ride <;> cases grow <;> rfl

/-- C3: the claimed stamen lottery bounds, [25, 30] clipped to the vector
length, force the all-true selection on the ten stamens the loader creates,
so the lottery is the all-true vector; under that selection the code does
exactly what the claim describes each torus-gate frame: a stamen outside the
selection would be left unchanged (vacuously, none exists), and every
selected stamen keeps its shown visibility, rides upward by 0.04 exactly
when the torus position guard (at most 41.5) holds, and grows by 0.0003 per
axis exactly when the lead stamen scale guard (scale.x at most 0.12) holds. -/
theorem C3_stamen_lottery_gate (lottery : List Bool) (torus : Part) (stamens : List Part)
    (out : Part × List Part) (s0 : Part)
    (hsl : stamens.length = 10) (hll : lottery.length = 10)
    (hlo : min 25 stamens.length ≤ countTrue lottery)
    (hhi : countTrue lottery ≤ min 30 stamens.length)
    (h0 : stamens[0]? = some s0)
    (h : updateTorusAndStamens torus stamens = some out) :
    lottery = List.replicate 10 true ∧
    (∀ i : Nat, lottery[i]? = some false → out.2[i]? = stamens[i]?) ∧
    (∀ (i : Nat) (s s' : Part), lottery[i]? = some true →
      stamens[i]? = some s → out.2[i]? = some s' →
      (s.visible = true → s'.visible = true) ∧
      s'.position.y = (if torus.position.y ≤ (41.5 : ℚ) then s.position.y + 0.04 else s.position.y) ∧
      s'.scale.x = (if s0.scale.x ≤ (0.12 : ℚ) then s.scale.x + 0.0003 else s.scale.x) ∧
      s'.scale.y = (if s0.scale.x ≤ (0.12 : ℚ) then s.scale.y + 0.0003 else s.scale.y) ∧
      s'.scale.z = (if s0.scale.x ≤ (0.12 : ℚ) then s.scale.z + 0.0003 else s.scale.z)) := by
  have hrep : lottery = List.replicate 10 true := by
    rw [hsl] at hlo
    have hle := countTrue_le_length lottery
    rw [hll] at hle
    have h10 : countTrue lottery = 10 := by
      have hmin : min 25 10 = 10 := by decide
      rw [hmin] at hlo
      omega
    have hrep' := eq_replicate_of_countTrue_eq_length lottery (by rw [h10, hll])
    rw [hll] at hrep'
    exact hrep'
  refine ⟨hrep, ?_, ?_⟩
  · intro i hfalse
    exfalso
    rw [hrep, List.getElem?_replicate] at hfalse
    split at hfalse
    · exact absurd (Option.some.inj hfalse) (by simp)
    · exact absurd hfalse (by simp)
  · intro i s s' htrue hsi hsi'
    have hchar := updateTorusAndStamens_snd_getElem torus stamens out s0 i h h0
    rw [hsi, hsi'] at hchar
    have hs' : s' = stamenEffect (decide (torus.position.y ≤ (41.5 : ℚ)))
        (decide (s0.scale.x ≤ (0.12 : ℚ))) s := by
      have := Option.some.inj hchar
      simpa using this
    refine ⟨?_, ?_, ?_, ?_, ?_⟩
    · intro hvis
      rw [hs', stamenEffect_visible]
      exact hvis
    · rw [hs', stamenEffect_position_y]
      by_cases hpos : torus.position.y ≤ (41.5 : ℚ) <;> simp [hpos]
    · rw [hs', stamenEffect_scale]
      by_cases hgrow : s0.scale.x ≤ (0.12 : ℚ) <;> simp [hgrow]
    · rw [hs', stamenEffect_scale]
      by_cases hgrow : s0.scale.x ≤ (0.12 : ℚ) <;> simp [hgrow]
    · rw [hs', stamenEffect_scale]
      by_cases hgrow : s0.scale.x ≤ (0.12 : ℚ) <;> simp [hgrow]

/-- Witness for C3 at a concrete settled torus and stamen list. -/
theorem C3_stamen_lottery_gate_witness :
    updateTorusAndStamens settledTorus settledStamens = some (settledTorus, settledStamens) ∧
    List.replicate 10 true = List.replicate 10 true := by
  have hEval : updateTorusAndStamens settledTorus settledStamens
      = some (settledTorus, settledStamens) := by
    simp only [updateTorusAndStamens, torusGrow, torusLift, stamensGate, settledTorus,
      settledStamens, settledStamen, List.getElem?_replicate]
    norm_num
  exact ⟨hEval,
    (C3_stamen_lottery_gate (List.replicate 10 true) settledTorus settledStamens
      (settledTorus, settledStamens) settledStamen rfl rfl (by decide) (by decide)
      rfl hEval).1⟩

/-! Claim C4. -/

theorem sampleAxis_mem (mn mx u : ℚ) (pos : Bool) (hmn : 0 < mn) (hmx : mn ≤ mx)
    (hu0 : 0 ≤ u) (hu1 : u < 1) :
    (mn ≤ sampleAxis mn mx u pos ∧ sampleAxis mn mx u pos ≤ mx) ∨
    (-mx ≤ sampleAxis mn mx u pos ∧ sampleAxis mn mx u pos ≤ -mn) := by
  rw [sampleAxis]
  cases pos with
  | false =>
    right
    rw [if_neg (by simp)]
    constructor <;> nlinarith
  | true =>
    left
    rw [if_pos rfl]
    constructor <;> nlinarith

theorem placeAttempt_spec (b : Bounds) (refX refZ : ℚ) (polys : List (List (ℚ × ℚ)))
    (d : SampleDraw) (dx dz : ℚ) (h : placeAttempt b refX refZ polys d = some (dx, dz)) :
    dx = sampleAxis b.xMin b.xMax d.ux d.sx ∧ dz = sampleAxis b.zMin b.zMax d.uz d.sz ∧
    pointInAnyPolygon (refX + dx, refZ + dz) polys = false := by
  simp only [placeAttempt] at h
  split at h
  · exact absurd h (by simp)
  · rename_i hin
    have hpair := Option.some.inj h
    have hdx : sampleAxis b.xMin b.xMax d.ux d.sx = dx := congrArg Prod.fst hpair
    have hdz : sampleAxis b.zMin b.zMax d.uz d.sz = dz := congrArg Prod.snd hpair
    refine ⟨hdx.symm, hdz.symm, ?_⟩
    rw [hdx, hdz] at hin
    exact Bool.not_eq_true _ ▸ (by simpa using hin)

theorem placeNewInstance_accept :
    ∀ (fuel : Nat) (b : Bounds) (refX refZ : ℚ) (restricted : List (List (ℚ × ℚ)))
      (priors : List (ℚ × ℚ)) (draws : Nat → SampleDraw) (dx dz : ℚ),
      placeNewInstance b refX refZ restricted priors draws fuel = some (dx, dz) →
      ∃ k, dx = sampleAxis b.xMin b.xMax (draws k).ux (draws k).sx ∧
        dz = sampleAxis b.zMin b.zMax (draws k).uz (draws k).sz ∧
        pointInAnyPolygon (refX + dx, refZ + dz)
          (restricted ++ priors.map footprintPolygon) = false
  | 0, b, refX, refZ, restricted, priors, draws, dx, dz, h =>
    absurd h (by simp [placeNewInstance])
  | fuel + 1, b, refX, refZ, restricted, priors, draws, dx, dz, h => by
    rw [placeNewInstance] at h
    cases hat : placeAttempt b refX refZ (restricted ++ priors.map footprintPolygon)
        (draws fuel) with
    | some dxz =>
      rw [hat] at h
      have hdxz : dxz = (dx, dz) := Option.some.inj h
      rw [hdxz] at hat
      exact ⟨fuel, placeAttempt_spec b refX refZ _ (draws fuel) dx dz hat⟩
    | none =>
      rw [hat] at h
      exact placeNewInstance_accept fuel b refX refZ restricted priors draws dx dz h

/-- C4 (spec-modelled; the Placement Engine is absent from src): for sampling
bounds with positive minima below the maxima (and below the radius R of the
free disk of the framing), an offset placeNewInstance accepts always fails
the even-odd point-in-polygon test against every restricted polygon and
every prior-instance footprint, and each accepted axis offset lies in the
union of [-max, -min] and [min, max], never in the open band (-min, min). -/
theorem C4_placement_never_in_forbidden (b : Bounds) (R refX refZ : ℚ)
    (restricted : List (List (ℚ × ℚ))) (priors : List (ℚ × ℚ)) (draws : Nat → SampleDraw)
    (fuel : Nat) (dx dz : ℚ)
    (hx0 : 0 < b.xMin) (hx1 : b.xMin ≤ b.xMax) (hz0 : 0 < b.zMin) (hz1 : b.zMin ≤ b.zMax)
    (hR : b.xMax < R ∧ b.zMax < R)
    (hdraws : ∀ k, 0 ≤ (draws k).ux ∧ (draws k).ux < 1 ∧ 0 ≤ (draws k).uz ∧ (draws k).uz < 1)
    (h : placeNewInstance b refX refZ restricted priors draws fuel = some (dx, dz)) :
    (∀ poly ∈ restricted ++ priors.map footprintPolygon,
      pointInPolygon (refX + dx, refZ + dz) poly = false) ∧
    ((b.xMin ≤ dx ∧ dx ≤ b.xMax) ∨ (-b.xMax ≤ dx ∧ dx ≤ -b.xMin)) ∧
    ((b.zMin ≤ dz ∧ dz ≤ b.zMax) ∨ (-b.zMax ≤ dz ∧ dz ≤ -b.zMin)) ∧
    ¬ (-b.xMin < dx ∧ dx < b.xMin) ∧ ¬ (-b.zMin < dz ∧ dz < b.zMin) := by
  obtain ⟨k, hdx, hdz, hfail⟩ :=
    placeNewInstance_accept fuel b refX refZ restricted priors draws dx dz h
  obtain ⟨hux0, hux1, huz0, huz1⟩ := hdraws k
  have hxmem := sampleAxis_mem b.xMin b.xMax (draws k).ux (draws k).sx hx0 hx1 hux0 hux1
  have hzmem := sampleAxis_mem b.zMin b.zMax (draws k).uz (draws k).sz hz0 hz1 huz0 huz1
  rw [← hdx] at hxmem
  rw [← hdz] at hzmem
  refine ⟨?_, hxmem, hzmem, ?_, ?_⟩
  · intro poly hpoly
    have := (List.any_eq_false.mp (by simpa [pointInAnyPolygon] using hfail)) poly hpoly
    simpa using this
  · rcases hxmem with ⟨h1, _⟩ | ⟨_, h2⟩
    · intro hband
      linarith [hband.2]
    · intro hband
      linarith [hband.1]
  · rcases hzmem with ⟨h1, _⟩ | ⟨_, h2⟩
    · intro hband
      linarith [hband.2]
    · intro hband
      linarith [hband.1]

/-- Witness for C4 at a concrete far square, default bounds and half draws. -/
theorem C4_placement_never_in_forbidden_witness :
    placeNewInstance defaultBounds 0 0 [farSquare] [] (fun _ => halfDraw) 1 = some (85, 85) ∧
    (∀ poly ∈ [farSquare] ++ ([] : List (ℚ × ℚ)).map footprintPolygon,
      pointInPolygon ((0 : ℚ) + 85, (0 : ℚ) + 85) poly = false) := by
  have hEval : placeNewInstance defaultBounds 0 0 [farSquare] [] (fun _ => halfDraw) 1
      = some (85, 85) := by
    simp only [placeNewInstance, placeAttempt, pointInAnyPolygon, pointInPolygon,
      polygonEdges, edgeCrosses, footprintPolygon, sampleAxis, farSquare, halfDraw,
      defaultBounds, List.map, List.append_nil, List.zip, List.zipWith, List.foldl,
      List.any, List.drop]
    norm_num
  refine ⟨hEval, ?_⟩
  exact (C4_placement_never_in_forbidden defaultBounds 1000 0 0 [farSquare] []
    (fun _ => halfDraw) 1 85 85 (by norm_num [defaultBounds]) (by norm_num [defaultBounds])
    (by norm_num [defaultBounds]) (by norm_num [defaultBounds])
    (by norm_num [defaultBounds])
    (fun k => by norm_num [halfDraw]) hEval).1

/-- Witness for C10 on a concrete state whose single leaf is already shown. -/
theorem C10_leaf_visible_monotone_witness :
    (0 : Nat) ≤ 0 ∧ settledStamen.visible = true :=
  ⟨Nat.le_refl 0,
   C10_leaf_visible_monotone zeroOracle oneLeafLottery leafShownState 0 0 0
     leafShownState leafShownState (Nat.le_refl 0) rfl rfl
     (fun leaf h => by
       have hs : some settledStamen = some leaf := h
       rw [← Option.some.inj hs]
       rfl)
     settledStamen rfl⟩

end WebFlowers
